import Mathlib

/-!
Verification of the hono-sanitizer core (src/utils.ts): a shallow embedding
of the traversal-and-policy engine, with the observer callbacks (onSanitize,
onSkip, onError) modelled as an event trace and thrown exceptions modelled
with Except.  The DOMPurify capability is an opaque function parameter, as
the spec treats it as an external pure capability.
-/

namespace HonoSanitizer

/-- JSON-like runtime values: strings, numbers, booleans, null, arrays and
plain objects (ordered key/value lists, mirroring Object.entries order). -/
inductive Value where
  | vStr (s : String)
  | vNum (n : Int)
  | vBool (b : Bool)
  | vNull
  | vArr (items : List Value)
  | vObj (entries : List (String × Value))
deriving Repr

/-- Sanitization modes, from types.ts: SanitizationMode. -/
inductive SanitizationMode where
  | strict
  | html
  | skip
  | custom
deriving DecidableEq, Repr

/-- Array handling strategies, from types.ts: ArrayStrategy. -/
inductive ArrayStrategy where
  | skip
  | each
  | join
deriving DecidableEq, Repr

/-- The slice of DOMPurifyConfig that the core ever constructs itself
(strict mode passes ALLOWED_TAGS = [] and ALLOWED_ATTR = []); other
configurations are opaque data handed to the capability. -/
structure DOMPurifyConfig where
  ALLOWED_TAGS : Option (List String)
  ALLOWED_ATTR : Option (List String)
deriving DecidableEq, Repr

/-- The empty object literal passed as DOMPurify.sanitize(value, config or empty). -/
def emptyDPConfig : DOMPurifyConfig := ⟨none, none⟩

/-- The config literal used by strict mode: ALLOWED_TAGS [], ALLOWED_ATTR []. -/
def strictDPConfig : DOMPurifyConfig := ⟨some [], some []⟩

/-- The external markup-sanitizing capability (DOMPurify.sanitize), a pure
function from a raw string and a config to a safe string. -/
abbrev Purify := String → DOMPurifyConfig → String

/-- Per-field configuration, from types.ts: FieldConfig.  The custom
sanitizer may throw, modelled as Except with a String error message. -/
structure FieldConfig where
  mode : SanitizationMode
  config : Option DOMPurifyConfig
  sanitizer : Option (Value → Except String Value)

/-- The merged option record threaded through traversal, from types.ts:
SanitizationContext options (callbacks are modelled by the event trace, so
they do not appear here). -/
structure Options where
  mode : SanitizationMode
  whitelist : Option (List String)
  blacklist : Option (List String)
  fields : Option (List (String × FieldConfig))
  deep : Bool
  maxDepth : Nat
  arrays : ArrayStrategy
  config : Option DOMPurifyConfig
  throwOnError : Bool

/-- Observer callback invocations recorded during traversal: each
constructor records one call with its argument values. -/
inductive Event where
  | sanitizeEv (field : String) (original result : Value)
  | skipEv (field : String) (value : Value)
  | errorEv (msg : String) (field : String)
deriving Repr

/-- Splits a character list on a separator character, JavaScript
String.prototype.split semantics for a one-character separator. -/
def splitCharList (c : Char) : List Char → List (List Char)
  | [] => [[]]
  | x :: xs =>
    let r := splitCharList c xs
    if x = c then [] :: r
    else
      match r with
      | [] => [[x]]
      | h :: t => (x :: h) :: t

/-- Embeds the JavaScript fieldPath.split(".") call. -/
def jsSplit (s : String) (c : Char) : List String :=
  (splitCharList c s.data).map fun l => String.mk l

/-- Embeds the JavaScript s.startsWith(pre) test. -/
def jsStartsWith (s pre : String) : Bool :=
  pre.data.isPrefixOf s.data

/-- Tests one whitelist or blacklist pattern against a field path:
fieldPath === pattern or fieldPath.startsWith(pattern + "."). -/
def patternMatches (fieldPath pattern : String) : Bool :=
  fieldPath == pattern || jsStartsWith fieldPath (pattern ++ ".")

/-- Embeds the blacklist half of shouldSanitizeField (utils.ts lines
30 to 37): reached only when the whitelist test is not active. -/
def shouldSanitizeNoWhitelist (fieldPath : String) (options : Options) : Bool :=
  match options.blacklist with
  | some bl =>
    if bl.length > 0 then
      !(bl.any fun pattern => patternMatches fieldPath pattern)
    else true
  | none => true

/-- Embeds shouldSanitizeField (utils.ts lines 19 to 38): whitelist test
when the whitelist is present and non-empty, else the blacklist test. -/
def shouldSanitizeField (fieldPath : String) (options : Options) : Bool :=
  match options.whitelist with
  | some wl =>
    if wl.length > 0 then
      wl.any fun pattern => patternMatches fieldPath pattern
    else shouldSanitizeNoWhitelist fieldPath options
  | none => shouldSanitizeNoWhitelist fieldPath options

/-- First binding of a key in the fields record, modelling a JavaScript
object property lookup. -/
def lookupField (fields : List (String × FieldConfig)) (key : String) :
    Option FieldConfig :=
  (fields.find? fun kv => kv.1 == key).map fun kv => kv.2

/-- Embeds the ancestor-path loop of getFieldConfig (utils.ts lines 55 to
61): for i from the given bound down to 1, look up the join of the first i
path segments and return the first hit. -/
def ancestorConfig (fields : List (String × FieldConfig)) (parts : List String) :
    Nat → Option FieldConfig
  | 0 => none
  | i + 1 =>
    match lookupField fields (String.intercalate "." (parts.take (i + 1))) with
    | some fc => some fc
    | none => ancestorConfig fields parts i

/-- Embeds getFieldConfig (utils.ts lines 43 to 64): exact match first,
then the ancestor loop from parts.length - 1 down to 1, else none. -/
def getFieldConfig (fieldPath : String) (options : Options) : Option FieldConfig :=
  match options.fields with
  | none => none
  | some fields =>
    match lookupField fields fieldPath with
    | some fc => some fc
    | none =>
      let parts := jsSplit fieldPath '.'
      ancestorConfig fields parts (parts.length - 1)

/-- Embeds sanitizeString (utils.ts lines 69 to 86): strict mode strips
with an empty allow-list, html mode passes the supplied config or an empty
object, skip and custom modes return the value unchanged. -/
def sanitizeString (purify : Purify) (value : String) (mode : SanitizationMode)
    (config : Option DOMPurifyConfig) : String :=
  if mode = .strict then purify value strictDPConfig
  else if mode = .html then purify value (config.getD emptyDPConfig)
  else value

/-- The value the code passes as the second onSkip argument in
shouldSkipField: the mutable ctx.path array, an array of strings. -/
def pathValue (path : List String) : Value :=
  Value.vArr (path.map Value.vStr)

/-- Embeds shouldSkipField (utils.ts lines 91 to 107), returning the
events fired and the decision.  Note the code passes ctx.path, not the
node value, as the second onSkip argument. -/
def shouldSkipField (fieldPath : String) (fieldConfig : Option FieldConfig)
    (options : Options) (path : List String) : List Event × Bool :=
  if !(shouldSanitizeField fieldPath options) then
    ([Event.skipEv fieldPath (pathValue path)], true)
  else if (fieldConfig.map fun fc => fc.mode) = some .skip then
    ([Event.skipEv fieldPath (pathValue path)], true)
  else ([], false)

/-- Embeds the guard fieldConfig mode custom and fieldConfig.sanitizer
(utils.ts line 214). -/
def customSanitizerOf : Option FieldConfig → Option (Value → Except String Value)
  | some fc => if fc.mode = .custom then fc.sanitizer else none
  | none => none

/-- Embeds applyCustomSanitizer (utils.ts lines 112 to 121): run the
custom function, then invoke onSanitize unconditionally; a thrown error
propagates before onSanitize fires. -/
def applyCustomSanitizer (value : Value) (fieldPath : String)
    (sanitizer : Value → Except String Value) : List Event × Except String Value :=
  match sanitizer value with
  | .error e => ([], .error e)
  | .ok s => ([Event.sanitizeEv fieldPath value s], .ok s)

/-- Embeds sanitizeStringValue (utils.ts lines 126 to 138): transform,
then invoke onSanitize only if the result differs from the input. -/
def sanitizeStringValue (purify : Purify) (value : String) (fieldPath : String)
    (mode : SanitizationMode) (config : Option DOMPurifyConfig) :
    List Event × String :=
  let sanitized := sanitizeString purify value mode config
  if sanitized ≠ value then
    ([Event.sanitizeEv fieldPath (Value.vStr value) (Value.vStr sanitized)], sanitized)
  else ([], sanitized)

/-- Embeds mode resolution (utils.ts line 219): fieldConfig mode if a
field config was found (mode is a required, truthy property), else the
global default mode. -/
def resolveMode : Option FieldConfig → Options → SanitizationMode
  | some fc, _ => fc.mode
  | none, options => options.mode

/-- Embeds config resolution (utils.ts line 220): fieldConfig config if
present, else the global config. -/
def resolveConfig : Option FieldConfig → Options → Option DOMPurifyConfig
  | some fc, options =>
    match fc.config with
    | some c => some c
    | none => options.config
  | none, options => options.config

/-- The depth-exceeded error message built at utils.ts lines 180 to 182. -/
def depthMessage (maxDepth : Nat) (fieldPath : String) : String :=
  "Maximum recursion depth (" ++ toString maxDepth ++ ") exceeded at path: " ++ fieldPath

/-- Embeds the try/catch wrapper of sanitizeValue (utils.ts lines 205 and
239 to 244): on a thrown error, rethrow when throwOnError is set, else
invoke onError and treat the original value as the result. -/
def catchStep (options : Options) (fieldPath : String) (value : Value) :
    List Event × Except String Value → List Event × Except String Value
  | (evts, .ok v) => (evts, .ok v)
  | (evts, .error e) =>
    if options.throwOnError then (evts, .error e)
    else (evts ++ [Event.errorEv e fieldPath], .ok value)

mutual

/-- JavaScript string conversion of an array element inside join: null
becomes the empty string, nested arrays join with commas, objects print as
object Object. -/
def jsElemString : Value → String
  | .vStr s => s
  | .vNum n => toString n
  | .vBool b => if b then "true" else "false"
  | .vNull => ""
  | .vArr items => String.intercalate "," (jsElemStrings items)
  | .vObj _ => "[object Object]"

/-- The element-by-element string forms of a list of values. -/
def jsElemStrings : List Value → List String
  | [] => []
  | v :: rest => jsElemString v :: jsElemStrings rest

end

/-- Embeds value.join(sep): element string forms interleaved with the
separator. -/
def jsJoin (sep : String) (items : List Value) : String :=
  String.intercalate sep (jsElemStrings items)

mutual

/-- Embeds sanitizeValue (utils.ts lines 202 to 245), with the bodies of
sanitizeArrayValue (lines 143 to 169) and sanitizeObjectValue (lines 174
to 197) inlined at their call sites so that the recursion is structural.
The context is the explicit path list and depth counter; the result is the
event trace paired with either the sanitized value or a propagated error.
Array handling: skip strategy returns the array with one onSkip call, join
collapses to a scalar string with one unconditional onSanitize call, each
recurses per element.  Object handling: at or past maxDepth the depth
error is raised (thrown when throwOnError, else reported via onError with
the value returned unchanged); below it the object is rebuilt key by key
at depth + 1. -/
def sanitizeValue (purify : Purify) (options : Options) (path : List String)
    (depth : Nat) (value : Value) : List Event × Except String Value :=
  let fieldPath := String.intercalate "." path
  catchStep options fieldPath value
    (let fieldConfig := getFieldConfig fieldPath options
     let skipRes := shouldSkipField fieldPath fieldConfig options path
     if skipRes.2 then (skipRes.1, .ok value)
     else
       match customSanitizerOf fieldConfig with
       | some s => applyCustomSanitizer value fieldPath s
       | none =>
         match value with
         | .vStr s =>
           let r := sanitizeStringValue purify s fieldPath
             (resolveMode fieldConfig options) (resolveConfig fieldConfig options)
           (r.1, .ok (.vStr r.2))
         | .vArr items =>
           if options.arrays = .skip then
             ([Event.skipEv fieldPath (.vArr items)], .ok (.vArr items))
           else if options.arrays = .join then
             let sanitized := sanitizeString purify (jsJoin " " items)
               (resolveMode fieldConfig options) (resolveConfig fieldConfig options)
             ([Event.sanitizeEv fieldPath (.vArr items) (.vStr sanitized)],
               .ok (.vStr sanitized))
           else
             match sanitizeArrEach purify options path depth 0 items with
             | (evts, .ok out) => (evts, .ok (.vArr out))
             | (evts, .error e) => (evts, .error e)
         | .vObj entries =>
           if options.deep then
             if depth ≥ options.maxDepth then
               if options.throwOnError then
                 ([], .error (depthMessage options.maxDepth fieldPath))
               else
                 ([Event.errorEv (depthMessage options.maxDepth fieldPath) fieldPath],
                   .ok (.vObj entries))
             else
               match sanitizeObjEntries purify options path depth entries with
               | (evts, .ok out) => (evts, .ok (.vObj out))
               | (evts, .error e) => (evts, .error e)
           else ([], .ok value)
         | v => ([], .ok v))

/-- The element loop of the each strategy (utils.ts lines 163 to 168):
value.map with the stringified index pushed as a path segment; a thrown
error aborts the loop, events already fired are kept. -/
def sanitizeArrEach (purify : Purify) (options : Options) (path : List String)
    (depth : Nat) (idx : Nat) : List Value → List Event × Except String (List Value)
  | [] => ([], .ok [])
  | item :: rest =>
    match sanitizeValue purify options (path ++ [toString idx]) depth item with
    | (evts, .error e) => (evts, .error e)
    | (evts, .ok sv) =>
      match sanitizeArrEach purify options path depth (idx + 1) rest with
      | (evts2, .ok out) => (evts ++ evts2, .ok (sv :: out))
      | (evts2, .error e) => (evts ++ evts2, .error e)

/-- The key loop of sanitizeObjectValue (utils.ts lines 188 to 195): each
entry is sanitized with its key pushed on the path and the depth counter
incremented; a thrown error aborts the loop. -/
def sanitizeObjEntries (purify : Purify) (options : Options) (path : List String)
    (depth : Nat) : List (String × Value) → List Event × Except String (List (String × Value))
  | [] => ([], .ok [])
  | (k, v) :: rest =>
    match sanitizeValue purify options (path ++ [k]) (depth + 1) v with
    | (evts, .error e) => (evts, .error e)
    | (evts, .ok sv) =>
      match sanitizeObjEntries purify options path depth rest with
      | (evts2, .ok out) => (evts ++ evts2, .ok ((k, sv) :: out))
      | (evts2, .error e) => (evts ++ evts2, .error e)

end

/-- Embeds sanitizeTarget (utils.ts lines 250 to 269): a fresh context
with empty path and depth 0, each top-level key sanitized in order; a
thrown error escapes the whole call. -/
def sanitizeTarget (purify : Purify) (options : Options) :
    List (String × Value) → List Event × Except String (List (String × Value))
  | [] => ([], .ok [])
  | (k, v) :: rest =>
    match sanitizeValue purify options [k] 0 v with
    | (evts, .error e) => (evts, .error e)
    | (evts, .ok sv) =>
      match sanitizeTarget purify options rest with
      | (evts2, .ok out) => (evts ++ evts2, .ok ((k, sv) :: out))
      | (evts2, .error e) => (evts ++ evts2, .error e)

/-- A sample capability that returns its input unchanged, used to
instantiate theorems at concrete inputs. -/
def idPurify : Purify := fun s _ => s

/-- A sample capability that erases every string, used to instantiate
theorems at concrete inputs where the transformation must change the
value. -/
def blankPurify : Purify := fun _ _ => ""

/-- The value component of a sanitizeValue run, with the (unreachable when
throwOnError is false) error case mapped to the original value. -/
def sanitizeValueTotal (purify : Purify) (options : Options) (path : List String)
    (depth : Nat) (value : Value) : Value :=
  match (sanitizeValue purify options path depth value).2 with
  | .ok w => w
  | .error _ => value

/-- The per-element form of the each-strategy loop, with the error case
mapped away; used to state that every array element is sanitized
independently of its siblings. -/
def sanitizeArrEachTotal (purify : Purify) (options : Options) (path : List String)
    (depth : Nat) (idx : Nat) : List Value → List Value
  | [] => []
  | item :: rest =>
    sanitizeValueTotal purify options (path ++ [toString idx]) depth item ::
      sanitizeArrEachTotal purify options path depth (idx + 1) rest

mutual

/-- Nesting height of plain objects in a value: the number of object
boundaries on the deepest chain of nested objects, with arrays passed
through transparently (the each strategy recurses into arrays without
incrementing the depth counter). -/
def objNest : Value → Nat
  | .vObj entries => 1 + objNestEntries entries
  | .vArr items => objNestItems items
  | _ => 0

/-- Maximum objNest over the values of an entry list. -/
def objNestEntries : List (String × Value) → Nat
  | [] => 0
  | (_, v) :: rest => max (objNest v) (objNestEntries rest)

/-- Maximum objNest over a list of values. -/
def objNestItems : List Value → Nat
  | [] => 0
  | v :: rest => max (objNest v) (objNestItems rest)

end

/-- Replaces the blacklist of an option record, leaving every other
setting unchanged. -/
def setBlacklist (options : Options) (b : Option (List String)) : Options :=
  ⟨options.mode, options.whitelist, b, options.fields, options.deep,
    options.maxDepth, options.arrays, options.config, options.throwOnError⟩

/-- Holds exactly for the value kinds that reach the final return of
sanitizeValue: numbers, booleans and null (the embedding has no
non-plain-object kind; such values also take that branch). -/
def nonContainer : Value → Bool
  | .vStr _ => false
  | .vArr _ => false
  | .vObj _ => false
  | _ => true

/-- A field override with mode skip. -/
def fcSkip : FieldConfig := ⟨SanitizationMode.skip, none, none⟩

/-- A field override whose custom sanitizer always throws. -/
def fcBoom : FieldConfig :=
  ⟨SanitizationMode.custom, none, some fun _ => Except.error "boom"⟩

/-- A field override whose custom sanitizer returns its input unchanged. -/
def fcIdCustom : FieldConfig :=
  ⟨SanitizationMode.custom, none, some fun v => Except.ok v⟩

/-- A field override whose custom sanitizer replaces any value by the
number zero. -/
def fcNum0 : FieldConfig :=
  ⟨SanitizationMode.custom, none, some fun _ => Except.ok (Value.vNum 0)⟩

/-- Options with a whitelist and a blacklist, for scope checks. -/
def whitelistOptions : Options :=
  ⟨SanitizationMode.strict, some ["user"], some ["other"], none, true, 10,
    ArrayStrategy.each, none, false⟩

/-- Options with one field override keyed at a two-segment path. -/
def fieldsOptions : Options :=
  ⟨SanitizationMode.strict, none, none, some [("user.profile", fcSkip)], true, 10,
    ArrayStrategy.each, none, false⟩

/-- Options with one blacklisted field. -/
def blacklistOptions : Options :=
  ⟨SanitizationMode.strict, none, some ["metadata"], none, true, 10,
    ArrayStrategy.each, none, false⟩

/-- Options whose global default mode is skip. -/
def globalSkipOptions : Options :=
  ⟨SanitizationMode.skip, none, none, none, true, 10, ArrayStrategy.each, none, false⟩

/-- Options with a field-level skip override. -/
def fieldSkipOptions : Options :=
  ⟨SanitizationMode.strict, none, none, some [("password", fcSkip)], true, 10,
    ArrayStrategy.each, none, false⟩

/-- Options with an identity custom sanitizer on one field. -/
def customIdOptions : Options :=
  ⟨SanitizationMode.strict, none, none, some [("pwd", fcIdCustom)], true, 10,
    ArrayStrategy.each, none, false⟩

/-- Options with the join array strategy. -/
def joinOptions : Options :=
  ⟨SanitizationMode.strict, none, none, none, true, 10, ArrayStrategy.join, none, false⟩

/-- Options with a custom sanitizer on a numeric field. -/
def customNumOptions : Options :=
  ⟨SanitizationMode.strict, none, none, some [("n", fcNum0)], true, 10,
    ArrayStrategy.each, none, false⟩

/-- Options with maxDepth one, for depth-bound checks. -/
def depthOptions : Options :=
  ⟨SanitizationMode.strict, none, none, none, true, 1, ArrayStrategy.each, none, false⟩

/-- Options with a throwing custom sanitizer and contained errors. -/
def boomOptions : Options :=
  ⟨SanitizationMode.strict, none, none, some [("bad", fcBoom)], true, 10,
    ArrayStrategy.each, none, false⟩

/-- Options with a throwing custom sanitizer and error propagation. -/
def boomThrowOptions : Options :=
  ⟨SanitizationMode.strict, none, none, some [("bad", fcBoom)], true, 10,
    ArrayStrategy.each, none, true⟩

/-- Options whose whitelist holds only a multi-segment dotted path. -/
def dottedWhitelistOptions : Options :=
  ⟨SanitizationMode.strict, some ["user.profile.bio"], none, none, true, 10,
    ArrayStrategy.each, none, false⟩

/-- Default-shaped options: strict mode, no scope lists, no overrides. -/
def plainOptions : Options :=
  ⟨SanitizationMode.strict, none, none, none, true, 10, ArrayStrategy.each, none, false⟩

theorem catchStep_of_noThrow (options : Options) (fieldPath : String) (value : Value)
    (r : List Event × Except String Value) (h : options.throwOnError = false) :
    ∃ w, (catchStep options fieldPath value r).2 = Except.ok w := by
  obtain ⟨evts, rv⟩ := r
  cases rv <;> simp [catchStep, h]

theorem sanitizeValue_noThrow (purify : Purify) (options : Options) (path : List String)
    (depth : Nat) (value : Value) (h : options.throwOnError = false) :
    ∃ w, (sanitizeValue purify options path depth value).2 = Except.ok w := by
  unfold sanitizeValue
  exact catchStep_of_noThrow options _ value _ h

theorem sanitizeValueTotal_spec (purify : Purify) (options : Options) (path : List String)
    (depth : Nat) (value : Value) (h : options.throwOnError = false) :
    (sanitizeValue purify options path depth value).2 =
      Except.ok (sanitizeValueTotal purify options path depth value) := by
  obtain ⟨w, hw⟩ := sanitizeValue_noThrow purify options path depth value h
  simp [sanitizeValueTotal, hw]

theorem shouldSkipField_out (fieldPath : String) (fc : Option FieldConfig)
    (options : Options) (path : List String)
    (h : shouldSanitizeField fieldPath options = false) :
    shouldSkipField fieldPath fc options path =
      ([Event.skipEv fieldPath (pathValue path)], true) := by
  simp [shouldSkipField, h]

theorem shouldSkipField_fieldSkip (fieldPath : String) (fc : Option FieldConfig)
    (options : Options) (path : List String)
    (h : shouldSanitizeField fieldPath options = true)
    (hm : (fc.map fun c => c.mode) = some SanitizationMode.skip) :
    shouldSkipField fieldPath fc options path =
      ([Event.skipEv fieldPath (pathValue path)], true) := by
  simp [shouldSkipField, h, hm]

theorem shouldSkipField_through (fieldPath : String) (fc : Option FieldConfig)
    (options : Options) (path : List String)
    (h : shouldSanitizeField fieldPath options = true)
    (hm : (fc.map fun c => c.mode) ≠ some SanitizationMode.skip) :
    shouldSkipField fieldPath fc options path = ([], false) := by
  simp [shouldSkipField, h, hm]

theorem sanitizeValue_notInScope (purify : Purify) (options : Options)
    (path : List String) (depth : Nat) (value : Value)
    (h : shouldSanitizeField (String.intercalate "." path) options = false) :
    sanitizeValue purify options path depth value =
      ([Event.skipEv (String.intercalate "." path) (pathValue path)],
        Except.ok value) := by
  unfold sanitizeValue
  simp [shouldSkipField_out (String.intercalate "." path)
    (getFieldConfig (String.intercalate "." path) options) options path h, catchStep]

theorem getFieldConfig_none (fieldPath : String) (options : Options)
    (h : options.fields = none) : getFieldConfig fieldPath options = none := by
  simp [getFieldConfig, h]

theorem shouldSanitizeField_noLists (fieldPath : String) (options : Options)
    (hw : options.whitelist = none) (hb : options.blacklist = none) :
    shouldSanitizeField fieldPath options = true := by
  simp [shouldSanitizeField, shouldSanitizeNoWhitelist, hw, hb]

theorem customSanitizerOf_mode (fc : Option FieldConfig)
    (g : Value → Except String Value) (h : customSanitizerOf fc = some g) :
    (fc.map fun c => c.mode) = some SanitizationMode.custom := by
  cases fc with
  | none => simp [customSanitizerOf] at h
  | some c =>
    simp only [customSanitizerOf] at h
    split at h
    · simp_all
    · simp at h

theorem sanitizeValue_fieldSkip (purify : Purify) (options : Options)
    (path : List String) (depth : Nat) (value : Value) (fc : FieldConfig)
    (hs : shouldSanitizeField (String.intercalate "." path) options = true)
    (hfc : getFieldConfig (String.intercalate "." path) options = some fc)
    (hm : fc.mode = SanitizationMode.skip) :
    sanitizeValue purify options path depth value =
      ([Event.skipEv (String.intercalate "." path) (pathValue path)],
        Except.ok value) := by
  unfold sanitizeValue
  simp [hfc, shouldSkipField_fieldSkip (String.intercalate "." path) (some fc)
    options path hs (by simp [hm]), catchStep]

theorem sanitizeValue_custom_ok (purify : Purify) (options : Options)
    (path : List String) (depth : Nat) (value w : Value)
    (g : Value → Except String Value)
    (hs : shouldSanitizeField (String.intercalate "." path) options = true)
    (hg : customSanitizerOf (getFieldConfig (String.intercalate "." path) options) = some g)
    (hw : g value = Except.ok w) :
    sanitizeValue purify options path depth value =
      ([Event.sanitizeEv (String.intercalate "." path) value w], Except.ok w) := by
  have hm := customSanitizerOf_mode (getFieldConfig (String.intercalate "." path) options) g hg
  unfold sanitizeValue
  simp [shouldSkipField_through (String.intercalate "." path)
    (getFieldConfig (String.intercalate "." path) options) options path hs (by simp [hm]),
    hg, applyCustomSanitizer, hw, catchStep]

theorem sanitizeValue_custom_err_contained (purify : Purify) (options : Options)
    (path : List String) (depth : Nat) (value : Value) (e : String)
    (g : Value → Except String Value)
    (hs : shouldSanitizeField (String.intercalate "." path) options = true)
    (hg : customSanitizerOf (getFieldConfig (String.intercalate "." path) options) = some g)
    (he : g value = Except.error e)
    (ht : options.throwOnError = false) :
    sanitizeValue purify options path depth value =
      ([Event.errorEv e (String.intercalate "." path)], Except.ok value) := by
  have hm := customSanitizerOf_mode (getFieldConfig (String.intercalate "." path) options) g hg
  unfold sanitizeValue
  simp [shouldSkipField_through (String.intercalate "." path)
    (getFieldConfig (String.intercalate "." path) options) options path hs (by simp [hm]),
    hg, applyCustomSanitizer, he, catchStep, ht]

theorem sanitizeValue_custom_err_thrown (purify : Purify) (options : Options)
    (path : List String) (depth : Nat) (value : Value) (e : String)
    (g : Value → Except String Value)
    (hs : shouldSanitizeField (String.intercalate "." path) options = true)
    (hg : customSanitizerOf (getFieldConfig (String.intercalate "." path) options) = some g)
    (he : g value = Except.error e)
    (ht : options.throwOnError = true) :
    sanitizeValue purify options path depth value = ([], Except.error e) := by
  have hm := customSanitizerOf_mode (getFieldConfig (String.intercalate "." path) options) g hg
  unfold sanitizeValue
  simp [shouldSkipField_through (String.intercalate "." path)
    (getFieldConfig (String.intercalate "." path) options) options path hs (by simp [hm]),
    hg, applyCustomSanitizer, he, catchStep, ht]

theorem sanitizeValue_string (purify : Purify) (options : Options)
    (path : List String) (depth : Nat) (s : String)
    (hs : shouldSanitizeField (String.intercalate "." path) options = true)
    (hnc : customSanitizerOf (getFieldConfig (String.intercalate "." path) options) = none)
    (hns : ((getFieldConfig (String.intercalate "." path) options).map fun c => c.mode) ≠
      some SanitizationMode.skip) :
    sanitizeValue purify options path depth (Value.vStr s) =
      ((sanitizeStringValue purify s (String.intercalate "." path)
          (resolveMode (getFieldConfig (String.intercalate "." path) options) options)
          (resolveConfig (getFieldConfig (String.intercalate "." path) options) options)).1,
        Except.ok (Value.vStr (sanitizeStringValue purify s (String.intercalate "." path)
          (resolveMode (getFieldConfig (String.intercalate "." path) options) options)
          (resolveConfig (getFieldConfig (String.intercalate "." path) options) options)).2)) := by
  unfold sanitizeValue
  simp [shouldSkipField_through (String.intercalate "." path)
    (getFieldConfig (String.intercalate "." path) options) options path hs hns,
    hnc, catchStep]

theorem sanitizeValue_join (purify : Purify) (options : Options)
    (path : List String) (depth : Nat) (items : List Value)
    (hs : shouldSanitizeField (String.intercalate "." path) options = true)
    (hnc : customSanitizerOf (getFieldConfig (String.intercalate "." path) options) = none)
    (hns : ((getFieldConfig (String.intercalate "." path) options).map fun c => c.mode) ≠
      some SanitizationMode.skip)
    (hj : options.arrays = ArrayStrategy.join) :
    sanitizeValue purify options path depth (Value.vArr items) =
      ([Event.sanitizeEv (String.intercalate "." path) (Value.vArr items)
          (Value.vStr (sanitizeString purify (jsJoin " " items)
            (resolveMode (getFieldConfig (String.intercalate "." path) options) options)
            (resolveConfig (getFieldConfig (String.intercalate "." path) options) options)))],
        Except.ok (Value.vStr (sanitizeString purify (jsJoin " " items)
          (resolveMode (getFieldConfig (String.intercalate "." path) options) options)
          (resolveConfig (getFieldConfig (String.intercalate "." path) options) options)))) := by
  unfold sanitizeValue
  simp [shouldSkipField_through (String.intercalate "." path)
    (getFieldConfig (String.intercalate "." path) options) options path hs hns,
    hnc, hj, catchStep]

theorem sanitizeValue_obj_depth (purify : Purify) (options : Options)
    (path : List String) (depth : Nat) (entries : List (String × Value))
    (hs : shouldSanitizeField (String.intercalate "." path) options = true)
    (hnc : customSanitizerOf (getFieldConfig (String.intercalate "." path) options) = none)
    (hns : ((getFieldConfig (String.intercalate "." path) options).map fun c => c.mode) ≠
      some SanitizationMode.skip)
    (hdeep : options.deep = true)
    (ht : options.throwOnError = false)
    (hd : options.maxDepth ≤ depth) :
    sanitizeValue purify options path depth (Value.vObj entries) =
      ([Event.errorEv (depthMessage options.maxDepth (String.intercalate "." path))
          (String.intercalate "." path)],
        Except.ok (Value.vObj entries)) := by
  unfold sanitizeValue
  simp [shouldSkipField_through (String.intercalate "." path)
    (getFieldConfig (String.intercalate "." path) options) options path hs hns,
    hnc, hdeep, ht, hd, catchStep]

theorem sanitizeObjEntries_snd (purify : Purify) (options : Options)
    (path : List String) (depth : Nat) (entries : List (String × Value))
    (h : options.throwOnError = false) :
    (sanitizeObjEntries purify options path depth entries).2 =
      Except.ok (entries.map fun kv =>
        (kv.1, sanitizeValueTotal purify options (path ++ [kv.1]) (depth + 1) kv.2)) := by
  induction entries with
  | nil => simp [sanitizeObjEntries]
  | cons kv rest ih =>
    obtain ⟨k, v⟩ := kv
    have hv := sanitizeValueTotal_spec purify options (path ++ [k]) (depth + 1) v h
    rcases hsv : sanitizeValue purify options (path ++ [k]) (depth + 1) v with ⟨evts, r⟩
    rw [hsv] at hv
    simp only at hv
    subst hv
    rcases hre : sanitizeObjEntries purify options path depth rest with ⟨evts2, r2⟩
    rw [hre] at ih
    simp only at ih
    subst ih
    simp [sanitizeObjEntries, hsv, hre]

theorem sanitizeArrEach_snd (purify : Purify) (options : Options)
    (path : List String) (depth : Nat) (items : List Value) (idx : Nat)
    (h : options.throwOnError = false) :
    (sanitizeArrEach purify options path depth idx items).2 =
      Except.ok (sanitizeArrEachTotal purify options path depth idx items) := by
  induction items generalizing idx with
  | nil => simp [sanitizeArrEach, sanitizeArrEachTotal]
  | cons item rest ih =>
    have hv := sanitizeValueTotal_spec purify options (path ++ [toString idx]) depth item h
    rcases hsv : sanitizeValue purify options (path ++ [toString idx]) depth item with ⟨evts, r⟩
    rw [hsv] at hv
    simp only at hv
    subst hv
    rcases hre : sanitizeArrEach purify options path depth (idx + 1) rest with ⟨evts2, r2⟩
    have ih2 := ih (idx + 1)
    rw [hre] at ih2
    simp only at ih2
    subst ih2
    simp [sanitizeArrEach, sanitizeArrEachTotal, hsv, hre]

theorem sanitizeTarget_snd (purify : Purify) (options : Options)
    (target : List (String × Value)) (h : options.throwOnError = false) :
    (sanitizeTarget purify options target).2 =
      Except.ok (target.map fun kv =>
        (kv.1, sanitizeValueTotal purify options [kv.1] 0 kv.2)) := by
  induction target with
  | nil => simp [sanitizeTarget]
  | cons kv rest ih =>
    obtain ⟨k, v⟩ := kv
    have hv := sanitizeValueTotal_spec purify options [k] 0 v h
    rcases hsv : sanitizeValue purify options [k] 0 v with ⟨evts, r⟩
    rw [hsv] at hv
    simp only at hv
    subst hv
    rcases hre : sanitizeTarget purify options rest with ⟨evts2, r2⟩
    rw [hre] at ih
    simp only at ih
    subst ih
    simp [sanitizeTarget, hsv, hre]

theorem sanitizeValue_arr_each (purify : Purify) (options : Options)
    (path : List String) (depth : Nat) (items : List Value)
    (hs : shouldSanitizeField (String.intercalate "." path) options = true)
    (hnc : customSanitizerOf (getFieldConfig (String.intercalate "." path) options) = none)
    (hns : ((getFieldConfig (String.intercalate "." path) options).map fun c => c.mode) ≠
      some SanitizationMode.skip)
    (he : options.arrays = ArrayStrategy.each)
    (ht : options.throwOnError = false) :
    sanitizeValue purify options path depth (Value.vArr items) =
      ((sanitizeArrEach purify options path depth 0 items).1,
        Except.ok (Value.vArr (sanitizeArrEachTotal purify options path depth 0 items))) := by
  have h2 := sanitizeArrEach_snd purify options path depth items 0 ht
  rcases hae : sanitizeArrEach purify options path depth 0 items with ⟨evts, r⟩
  rw [hae] at h2
  simp only at h2
  subst h2
  unfold sanitizeValue
  simp [shouldSkipField_through (String.intercalate "." path)
    (getFieldConfig (String.intercalate "." path) options) options path hs hns,
    hnc, he, hae, catchStep]

theorem sanitizeValue_obj_rec (purify : Purify) (options : Options)
    (path : List String) (depth : Nat) (entries : List (String × Value))
    (hs : shouldSanitizeField (String.intercalate "." path) options = true)
    (hnc : customSanitizerOf (getFieldConfig (String.intercalate "." path) options) = none)
    (hns : ((getFieldConfig (String.intercalate "." path) options).map fun c => c.mode) ≠
      some SanitizationMode.skip)
    (hdeep : options.deep = true)
    (ht : options.throwOnError = false)
    (hd : depth < options.maxDepth) :
    sanitizeValue purify options path depth (Value.vObj entries) =
      ((sanitizeObjEntries purify options path depth entries).1,
        Except.ok (Value.vObj (entries.map fun kv =>
          (kv.1, sanitizeValueTotal purify options (path ++ [kv.1]) (depth + 1) kv.2)))) := by
  have h2 := sanitizeObjEntries_snd purify options path depth entries ht
  rcases hoe : sanitizeObjEntries purify options path depth entries with ⟨evts, r⟩
  rw [hoe] at h2
  simp only at h2
  subst h2
  unfold sanitizeValue
  simp [shouldSkipField_through (String.intercalate "." path)
    (getFieldConfig (String.intercalate "." path) options) options path hs hns,
    hnc, hdeep, Nat.not_le.mpr hd, hoe, catchStep]

theorem sanitizeTarget_events_mem (purify : Purify) (options : Options)
    (target : List (String × Value)) (k : String) (v : Value) (ev : Event)
    (h : options.throwOnError = false) (hmem : (k, v) ∈ target)
    (he : ev ∈ (sanitizeValue purify options [k] 0 v).1) :
    ev ∈ (sanitizeTarget purify options target).1 := by
  induction target with
  | nil => cases hmem
  | cons kv rest ih =>
    obtain ⟨k2, v2⟩ := kv
    rcases hsv : sanitizeValue purify options [k2] 0 v2 with ⟨evts, r⟩
    have hv := sanitizeValueTotal_spec purify options [k2] 0 v2 h
    rw [hsv] at hv
    simp only at hv
    subst hv
    rcases hre : sanitizeTarget purify options rest with ⟨evts2, r2⟩
    rcases List.mem_cons.mp hmem with heq | htail
    · obtain ⟨hk, hv2⟩ := Prod.mk.injEq .. ▸ heq
      subst hk
      subst hv2
      rw [hsv] at he
      simp only at he
      cases r2 <;> simp [sanitizeTarget, hsv, hre, he]
    · have hrest := ih htail
      rw [hre] at hrest
      simp only at hrest
      cases r2 <;> simp [sanitizeTarget, hsv, hre, hrest]

theorem intercalate_singleton (k : String) : String.intercalate "." [k] = k := by
  rfl

theorem customSanitizerOf_of_mode_ne (fcOpt : Option FieldConfig) (options : Options)
    (h : resolveMode fcOpt options ≠ SanitizationMode.custom) :
    customSanitizerOf fcOpt = none := by
  cases fcOpt with
  | none => rfl
  | some fc =>
    have hm : fc.mode ≠ SanitizationMode.custom := h
    simp [customSanitizerOf, hm]

theorem mapMode_ne_of_resolveMode (fcOpt : Option FieldConfig) (options : Options)
    (h : resolveMode fcOpt options ≠ SanitizationMode.skip) :
    (fcOpt.map fun c => c.mode) ≠ some SanitizationMode.skip := by
  cases fcOpt with
  | none => simp
  | some fc =>
    have hm : fc.mode ≠ SanitizationMode.skip := h
    simp [hm]

theorem mem_of_isPrefixOf {α : Type} [BEq α] [LawfulBEq α] :
    ∀ (p l : List α), p.isPrefixOf l = true → ∀ a, a ∈ p → a ∈ l
  | [], _, _, a, ha => by cases ha
  | x :: xs, [], h, a, ha => by simp at h
  | x :: xs, y :: ys, h, a, ha => by
    rw [List.isPrefixOf_cons₂] at h
    simp only [Bool.and_eq_true, beq_iff_eq] at h
    rcases List.mem_cons.mp ha with hax | hax
    · exact List.mem_cons.mpr (Or.inl (hax.trans h.1))
    · exact List.mem_cons.mpr (Or.inr (mem_of_isPrefixOf xs ys h.2 a hax))

theorem shouldSanitizeField_dotFree (options : Options) (wl : List String) (k : String)
    (hwl : options.whitelist = some wl) (hne : wl ≠ [])
    (hdot : ∀ p ∈ wl, ('.' : Char) ∈ p.data) (hk : ('.' : Char) ∉ k.data) :
    shouldSanitizeField k options = false := by
  simp only [shouldSanitizeField, hwl, List.length_pos.mpr hne, if_pos,
    List.any_eq_false, patternMatches, Bool.or_eq_true, beq_iff_eq, not_or]
  intro p hp
  constructor
  · intro hkp
    exact absurd (hkp ▸ hk) (by simp [hdot p hp])
  · intro hpre
    have hmem : ('.' : Char) ∈ k.data := by
      refine mem_of_isPrefixOf (p ++ ".").data k.data ?_ '.' ?_
      · exact hpre
      · rw [String.data_append]
        exact List.mem_append_left _ (hdot p hp)
    exact hk hmem

theorem ancestorConfig_some_iff (fields : List (String × FieldConfig))
    (parts : List String) :
    ∀ (n : Nat) (fc : FieldConfig),
      ancestorConfig fields parts n = some fc ↔
        ∃ i, 1 ≤ i ∧ i ≤ n ∧
          lookupField fields (String.intercalate "." (parts.take i)) = some fc ∧
          ∀ j, i < j → j ≤ n →
            lookupField fields (String.intercalate "." (parts.take j)) = none := by
  intro n
  induction n with
  | zero =>
    intro fc
    constructor
    · intro h
      simp [ancestorConfig] at h
    · rintro ⟨i, h1, h2, _, _⟩
      omega
  | succ n ih =>
    intro fc
    rcases hl : lookupField fields (String.intercalate "." (parts.take (n + 1))) with _ | fc0
    · constructor
      · intro h
        simp only [ancestorConfig, hl] at h
        obtain ⟨i, hi1, hi2, hi3, hi4⟩ := (ih fc).mp h
        refine ⟨i, hi1, by omega, hi3, ?_⟩
        intro j hj1 hj2
        rcases Nat.lt_or_ge j (n + 1) with hj | hj
        · exact hi4 j hj1 (by omega)
        · have : j = n + 1 := by omega
          rw [this]
          exact hl
      · rintro ⟨i, hi1, hi2, hi3, hi4⟩
        simp only [ancestorConfig, hl]
        have hin : i ≤ n := by
          rcases Nat.lt_or_ge i (n + 1) with hj | hj
          · omega
          · have : i = n + 1 := by omega
            rw [this] at hi3
            rw [hi3] at hl
            cases hl
        exact (ih fc).mpr ⟨i, hi1, hin, hi3, fun j hj1 hj2 => hi4 j hj1 (by omega)⟩
    · constructor
      · intro h
        simp only [ancestorConfig, hl] at h
        refine ⟨n + 1, by omega, by omega, ?_, ?_⟩
        · rw [hl, h]
        · intro j hj1 hj2
          omega
      · rintro ⟨i, hi1, hi2, hi3, hi4⟩
        simp only [ancestorConfig, hl]
        rcases Nat.lt_or_ge i (n + 1) with hj | hj
        · have := hi4 (n + 1) (by omega) (by omega)
          rw [this] at hl
          cases hl
        · have : i = n + 1 := by omega
          rw [this] at hi3
          rw [hi3] at hl
          cases hl
          rfl

mutual

/-- Under a default-shaped configuration (no scope lists, no field
overrides, deep traversal, each arrays, contained errors), a value whose
object nesting exceeds the remaining depth budget produces a depth error
event somewhere in its trace. -/
theorem depthErrValue (purify : Purify) (options : Options)
    (hw : options.whitelist = none) (hb : options.blacklist = none)
    (hf : options.fields = none) (hdeep : options.deep = true)
    (heach : options.arrays = ArrayStrategy.each)
    (ht : options.throwOnError = false) :
    (v : Value) → (path : List String) → (depth : Nat) →
    1 ≤ objNest v → options.maxDepth < depth + objNest v →
    ∃ p, Event.errorEv (depthMessage options.maxDepth p) p ∈
      (sanitizeValue purify options path depth v).1
  | .vStr s, path, depth, h1, h2 => by simp [objNest] at h1
  | .vNum n, path, depth, h1, h2 => by simp [objNest] at h1
  | .vBool b, path, depth, h1, h2 => by simp [objNest] at h1
  | .vNull, path, depth, h1, h2 => by simp [objNest] at h1
  | .vObj entries, path, depth, h1, h2 => by
    have hs := shouldSanitizeField_noLists (String.intercalate "." path) options hw hb
    have hfc := getFieldConfig_none (String.intercalate "." path) options hf
    have hnc : customSanitizerOf
        (getFieldConfig (String.intercalate "." path) options) = none := by
      rw [hfc]; rfl
    have hns : ((getFieldConfig (String.intercalate "." path) options).map
        fun c => c.mode) ≠ some SanitizationMode.skip := by
      rw [hfc]; simp
    by_cases hd : options.maxDepth ≤ depth
    · rw [sanitizeValue_obj_depth purify options path depth entries hs hnc hns hdeep ht hd]
      exact ⟨String.intercalate "." path, by simp⟩
    · have hd2 : depth < options.maxDepth := Nat.not_le.mp hd
      rw [sanitizeValue_obj_rec purify options path depth entries hs hnc hns hdeep ht hd2]
      simp only [objNest] at h2
      obtain ⟨p, hp⟩ := depthErrEntries purify options hw hb hf hdeep heach ht
        entries path depth (by omega) (by omega)
      exact ⟨p, hp⟩
  | .vArr items, path, depth, h1, h2 => by
    have hs := shouldSanitizeField_noLists (String.intercalate "." path) options hw hb
    have hfc := getFieldConfig_none (String.intercalate "." path) options hf
    have hnc : customSanitizerOf
        (getFieldConfig (String.intercalate "." path) options) = none := by
      rw [hfc]; rfl
    have hns : ((getFieldConfig (String.intercalate "." path) options).map
        fun c => c.mode) ≠ some SanitizationMode.skip := by
      rw [hfc]; simp
    rw [sanitizeValue_arr_each purify options path depth items hs hnc hns heach ht]
    simp only [objNest] at h1 h2
    obtain ⟨p, hp⟩ := depthErrItems purify options hw hb hf hdeep heach ht
      items path depth 0 h1 h2
    exact ⟨p, hp⟩

/-- Entry-list form of depthErrValue: some entry whose value overflows the
budget places a depth error event in the loop trace. -/
theorem depthErrEntries (purify : Purify) (options : Options)
    (hw : options.whitelist = none) (hb : options.blacklist = none)
    (hf : options.fields = none) (hdeep : options.deep = true)
    (heach : options.arrays = ArrayStrategy.each)
    (ht : options.throwOnError = false) :
    (entries : List (String × Value)) → (path : List String) → (depth : Nat) →
    1 ≤ objNestEntries entries →
    options.maxDepth < (depth + 1) + objNestEntries entries →
    ∃ p, Event.errorEv (depthMessage options.maxDepth p) p ∈
      (sanitizeObjEntries purify options path depth entries).1
  | [], path, depth, h1, h2 => by simp [objNestEntries] at h1
  | (k, v) :: rest, path, depth, h1, h2 => by
    simp only [objNestEntries] at h1 h2
    rcases hsv : sanitizeValue purify options (path ++ [k]) (depth + 1) v with ⟨evts, r⟩
    have hv := sanitizeValueTotal_spec purify options (path ++ [k]) (depth + 1) v ht
    rw [hsv] at hv
    simp only at hv
    subst hv
    rcases hre : sanitizeObjEntries purify options path depth rest with ⟨evts2, r2⟩
    rcases max_choice (objNest v) (objNestEntries rest) with hmx | hmx
    · rw [hmx] at h1 h2
      obtain ⟨p, hp⟩ := depthErrValue purify options hw hb hf hdeep heach ht
        v (path ++ [k]) (depth + 1) h1 (by omega)
      rw [hsv] at hp
      simp only at hp
      refine ⟨p, ?_⟩
      cases r2 <;> simp [sanitizeObjEntries, hsv, hre, hp]
    · rw [hmx] at h1 h2
      obtain ⟨p, hp⟩ := depthErrEntries purify options hw hb hf hdeep heach ht
        rest path depth h1 h2
      rw [hre] at hp
      simp only at hp
      refine ⟨p, ?_⟩
      cases r2 <;> simp [sanitizeObjEntries, hsv, hre, hp]

/-- Element-list form of depthErrValue for the each strategy: arrays do
not increment the depth counter. -/
theorem depthErrItems (purify : Purify) (options : Options)
    (hw : options.whitelist = none) (hb : options.blacklist = none)
    (hf : options.fields = none) (hdeep : options.deep = true)
    (heach : options.arrays = ArrayStrategy.each)
    (ht : options.throwOnError = false) :
    (items : List Value) → (path : List String) → (depth : Nat) → (idx : Nat) →
    1 ≤ objNestItems items →
    options.maxDepth < depth + objNestItems items →
    ∃ p, Event.errorEv (depthMessage options.maxDepth p) p ∈
      (sanitizeArrEach purify options path depth idx items).1
  | [], path, depth, idx, h1, h2 => by simp [objNestItems] at h1
  | item :: rest, path, depth, idx, h1, h2 => by
    simp only [objNestItems] at h1 h2
    rcases hsv : sanitizeValue purify options (path ++ [toString idx]) depth item with ⟨evts, r⟩
    have hv := sanitizeValueTotal_spec purify options (path ++ [toString idx]) depth item ht
    rw [hsv] at hv
    simp only at hv
    subst hv
    rcases hre : sanitizeArrEach purify options path depth (idx + 1) rest with ⟨evts2, r2⟩
    rcases max_choice (objNest item) (objNestItems rest) with hmx | hmx
    · rw [hmx] at h1 h2
      obtain ⟨p, hp⟩ := depthErrValue purify options hw hb hf hdeep heach ht
        item (path ++ [toString idx]) depth h1 h2
      rw [hsv] at hp
      simp only at hp
      refine ⟨p, ?_⟩
      cases r2 <;> simp [sanitizeArrEach, hsv, hre, hp]
    · rw [hmx] at h1 h2
      obtain ⟨p, hp⟩ := depthErrItems purify options hw hb hf hdeep heach ht
        rest path depth (idx + 1) h1 h2
      rw [hre] at hp
      simp only at hp
      refine ⟨p, ?_⟩
      cases r2 <;> simp [sanitizeArrEach, hsv, hre, hp]

end

/-- C1: with a non-empty whitelist, a field path is in scope exactly when
it equals a whitelist entry or starts with an entry followed by a dot; a
path that is out of scope is returned untransformed by sanitizeValue
regardless of the configured mode (only the skip event fires); and the
blacklist is ignored whenever the whitelist is non-empty. -/
theorem claim_C1 (options : Options) (wl : List String)
    (hwl : options.whitelist = some wl) (hne : wl ≠ []) :
    (∀ fieldPath : String,
      shouldSanitizeField fieldPath options = true ↔
        ∃ p ∈ wl, fieldPath = p ∨ jsStartsWith fieldPath (p ++ ".") = true)
    ∧ (∀ (purify : Purify) (path : List String) (depth : Nat) (value : Value),
        shouldSanitizeField (String.intercalate "." path) options = false →
        sanitizeValue purify options path depth value =
          ([Event.skipEv (String.intercalate "." path) (pathValue path)],
            Except.ok value))
    ∧ (∀ (b : Option (List String)) (fieldPath : String),
        shouldSanitizeField fieldPath (setBlacklist options b) =
          shouldSanitizeField fieldPath options) := by
  refine ⟨?_, ?_, ?_⟩
  · intro fieldPath
    simp [shouldSanitizeField, hwl, List.length_pos.mpr hne, List.any_eq_true,
      patternMatches]
  · intro purify path depth value h
    exact sanitizeValue_notInScope purify options path depth value h
  · intro b fieldPath
    simp [shouldSanitizeField, setBlacklist, hwl, List.length_pos.mpr hne]

/-- Witness for C1 at a concrete configuration: the whitelist entry user
puts user.name in scope, the path other is skipped untransformed, and
replacing the blacklist does not change the scope decision. -/
theorem claim_C1_witness :
    (shouldSanitizeField "user.name" whitelistOptions = true)
    ∧ (sanitizeValue idPurify whitelistOptions ["other"] 0 (Value.vStr "v") =
        ([Event.skipEv "other" (pathValue ["other"])], Except.ok (Value.vStr "v")))
    ∧ (shouldSanitizeField "other" (setBlacklist whitelistOptions (some ["other"])) =
        shouldSanitizeField "other" whitelistOptions) := by
  have h := claim_C1 whitelistOptions ["user"] rfl (by decide)
  refine ⟨?_, ?_, ?_⟩
  · exact (h.1 "user.name").mpr ⟨"user", by decide, Or.inr (by decide)⟩
  · exact h.2.1 idPurify ["other"] 0 (Value.vStr "v") (by decide)
  · exact h.2.2 (some ["other"]) "other"

/-- C2: field policy resolution returns the exact fields entry when one
exists; otherwise it returns the entry of the deepest ancestor path
obtained by dropping trailing dot segments, every deeper candidate being
absent; otherwise the global default mode and config are used. -/
theorem claim_C2 (options : Options) (fields : List (String × FieldConfig))
    (fieldPath : String) (hf : options.fields = some fields) :
    (∀ fc, lookupField fields fieldPath = some fc →
      getFieldConfig fieldPath options = some fc)
    ∧ (lookupField fields fieldPath = none →
       ∀ fc, getFieldConfig fieldPath options = some fc ↔
         ∃ i, 1 ≤ i ∧ i ≤ (jsSplit fieldPath '.').length - 1 ∧
           lookupField fields
             (String.intercalate "." ((jsSplit fieldPath '.').take i)) = some fc ∧
           ∀ j, i < j → j ≤ (jsSplit fieldPath '.').length - 1 →
             lookupField fields
               (String.intercalate "." ((jsSplit fieldPath '.').take j)) = none)
    ∧ (getFieldConfig fieldPath options = none →
        resolveMode (getFieldConfig fieldPath options) options = options.mode ∧
        resolveConfig (getFieldConfig fieldPath options) options = options.config) := by
  refine ⟨?_, ?_, ?_⟩
  · intro fc h
    simp [getFieldConfig, hf, h]
  · intro hnone fc
    simp only [getFieldConfig, hf, hnone]
    exact ancestorConfig_some_iff fields (jsSplit fieldPath '.')
      ((jsSplit fieldPath '.').length - 1) fc
  · intro h
    rw [h]
    exact ⟨rfl, rfl⟩

/-- Witness for C2 at a concrete configuration: with an entry at
user.profile and none at user.profile.bio, resolution at user.profile.bio
returns the ancestor entry, found at prefix length two. -/
theorem claim_C2_witness :
    getFieldConfig "user.profile.bio" fieldsOptions = some fcSkip := by
  have h := claim_C2 fieldsOptions [("user.profile", fcSkip)] "user.profile.bio" rfl
  refine (h.2.1 rfl fcSkip).mpr ⟨2, by decide, by decide, rfl, ?_⟩
  intro j h1 h2
  have h3 : (jsSplit "user.profile.bio" '.').length - 1 = 2 := by decide
  omega

/-- C5: the claim states that onSkip receives the skipped node value as
its second argument; the code instead passes the mutable ctx.path array.
At the concrete input below the skipped value is the string secret, yet
the recorded onSkip payload is the path array containing the single
segment metadata. -/
theorem claim_C5 :
    sanitizeTarget idPurify blacklistOptions [("metadata", Value.vStr "secret")] =
      ([Event.skipEv "metadata" (Value.vArr [Value.vStr "metadata"])],
        Except.ok [("metadata", Value.vStr "secret")]) := by
  rfl

/-- C6 counterexample: with the global default mode skip and no field
override, the claim asserts onSkip is invoked; the run below produces an
empty event trace (no onSkip call) even though the node is in scope and
its resolved mode is skip. -/
theorem claim_C6_counterexample :
    sanitizeTarget idPurify globalSkipOptions [("message", Value.vStr "hi")] =
      ([], Except.ok [("message", Value.vStr "hi")]) := by
  rfl

/-- C6 amended: only a field-level override with mode skip makes
sanitizeValue invoke onSkip and return the value unchanged; when the skip
mode comes from the global default with no field entry, a string value is
still returned unchanged but onSkip is not invoked. -/
theorem claim_C6 :
    (∀ (purify : Purify) (options : Options) (path : List String) (depth : Nat)
      (value : Value) (fc : FieldConfig),
      shouldSanitizeField (String.intercalate "." path) options = true →
      getFieldConfig (String.intercalate "." path) options = some fc →
      fc.mode = SanitizationMode.skip →
      sanitizeValue purify options path depth value =
        ([Event.skipEv (String.intercalate "." path) (pathValue path)],
          Except.ok value))
    ∧ (∀ (purify : Purify) (options : Options) (path : List String) (depth : Nat)
        (s : String),
        shouldSanitizeField (String.intercalate "." path) options = true →
        getFieldConfig (String.intercalate "." path) options = none →
        options.mode = SanitizationMode.skip →
        sanitizeValue purify options path depth (Value.vStr s) =
          ([], Except.ok (Value.vStr s))) := by
  constructor
  · intro purify options path depth value fc hs hfc hm
    exact sanitizeValue_fieldSkip purify options path depth value fc hs hfc hm
  · intro purify options path depth s hs hfc hm
    have hnc : customSanitizerOf
        (getFieldConfig (String.intercalate "." path) options) = none := by
      rw [hfc]; rfl
    have hns : ((getFieldConfig (String.intercalate "." path) options).map
        fun c => c.mode) ≠ some SanitizationMode.skip := by
      rw [hfc]; simp
    rw [sanitizeValue_string purify options path depth s hs hnc hns]
    rw [hfc]
    simp [sanitizeStringValue, sanitizeString, resolveMode, hm]

/-- Witness for C6: a field-level skip override fires onSkip and returns
the value unchanged, and a global default skip leaves the string alone
without any event. -/
theorem claim_C6_witness :
    (sanitizeValue idPurify fieldSkipOptions ["password"] 0 (Value.vStr "x") =
      ([Event.skipEv "password" (pathValue ["password"])],
        Except.ok (Value.vStr "x")))
    ∧ (sanitizeValue idPurify globalSkipOptions ["message"] 0 (Value.vStr "hi") =
        ([], Except.ok (Value.vStr "hi"))) := by
  have h := claim_C6
  exact ⟨h.1 idPurify fieldSkipOptions ["password"] 0 (Value.vStr "x") fcSkip
      (by decide) rfl rfl,
    h.2 idPurify globalSkipOptions ["message"] 0 "hi"
      (by decide) rfl rfl⟩

/-- C7: for a string node whose resolved mode is strict or html, the
onSanitize observer fires exactly when the transformed result differs from
the input; for a node with an applicable field-level custom sanitizer,
onSanitize fires unconditionally, even when the function returns its input
unchanged. -/
theorem claim_C7 :
    (∀ (purify : Purify) (options : Options) (path : List String) (depth : Nat)
      (s : String),
      shouldSanitizeField (String.intercalate "." path) options = true →
      (resolveMode (getFieldConfig (String.intercalate "." path) options) options =
          SanitizationMode.strict ∨
        resolveMode (getFieldConfig (String.intercalate "." path) options) options =
          SanitizationMode.html) →
      sanitizeValue purify options path depth (Value.vStr s) =
        (if sanitizeString purify s
            (resolveMode (getFieldConfig (String.intercalate "." path) options) options)
            (resolveConfig (getFieldConfig (String.intercalate "." path) options) options)
            = s then []
         else [Event.sanitizeEv (String.intercalate "." path) (Value.vStr s)
            (Value.vStr (sanitizeString purify s
              (resolveMode (getFieldConfig (String.intercalate "." path) options) options)
              (resolveConfig (getFieldConfig (String.intercalate "." path) options)
                options)))],
          Except.ok (Value.vStr (sanitizeString purify s
            (resolveMode (getFieldConfig (String.intercalate "." path) options) options)
            (resolveConfig (getFieldConfig (String.intercalate "." path) options)
              options)))))
    ∧ (∀ (purify : Purify) (options : Options) (path : List String) (depth : Nat)
        (value w : Value) (g : Value → Except String Value),
        shouldSanitizeField (String.intercalate "." path) options = true →
        customSanitizerOf (getFieldConfig (String.intercalate "." path) options) =
          some g →
        g value = Except.ok w →
        sanitizeValue purify options path depth value =
          ([Event.sanitizeEv (String.intercalate "." path) value w], Except.ok w)) := by
  constructor
  · intro purify options path depth s hs hm
    have hmc : resolveMode (getFieldConfig (String.intercalate "." path) options)
        options ≠ SanitizationMode.custom := by
      rcases hm with h | h <;> simp [h]
    have hms : resolveMode (getFieldConfig (String.intercalate "." path) options)
        options ≠ SanitizationMode.skip := by
      rcases hm with h | h <;> simp [h]
    have hnc := customSanitizerOf_of_mode_ne
      (getFieldConfig (String.intercalate "." path) options) options hmc
    have hns := mapMode_ne_of_resolveMode
      (getFieldConfig (String.intercalate "." path) options) options hms
    rw [sanitizeValue_string purify options path depth s hs hnc hns]
    simp only [sanitizeStringValue]
    split
    · simp_all
    · simp_all
  · intro purify options path depth value w g hs hg hw
    exact sanitizeValue_custom_ok purify options path depth value w g hs hg hw

/-- Witness for C7: a strict-mode transformation that changes the string
fires onSanitize once with the original and result, and an identity custom
sanitizer fires onSanitize even though nothing changed. -/
theorem claim_C7_witness :
    (sanitizeValue blankPurify plainOptions ["message"] 0 (Value.vStr "x") =
      ([Event.sanitizeEv "message" (Value.vStr "x") (Value.vStr "")],
        Except.ok (Value.vStr "")))
    ∧ (sanitizeValue idPurify customIdOptions ["pwd"] 0 (Value.vStr "abc") =
        ([Event.sanitizeEv "pwd" (Value.vStr "abc") (Value.vStr "abc")],
          Except.ok (Value.vStr "abc"))) := by
  constructor
  · have h1 := claim_C7.1 blankPurify plainOptions ["message"] 0 "x"
      (by decide) (Or.inl rfl)
    rw [h1]
    rfl
  · exact claim_C7.2 idPurify customIdOptions ["pwd"] 0 (Value.vStr "abc")
      (Value.vStr "abc") (fun v => Except.ok v) (by decide) rfl rfl

/-- C8: under the join array strategy an in-scope array node with no
applicable custom or skip override is collapsed: the element string forms
are joined with a single space, the joined string is transformed as a
scalar under the resolved mode and config, the result is a string value,
and exactly one onSanitize event is recorded for the collapse. -/
theorem claim_C8 (purify : Purify) (options : Options) (path : List String)
    (depth : Nat) (items : List Value)
    (hs : shouldSanitizeField (String.intercalate "." path) options = true)
    (hnc : customSanitizerOf (getFieldConfig (String.intercalate "." path) options) = none)
    (hns : ((getFieldConfig (String.intercalate "." path) options).map fun c => c.mode) ≠
      some SanitizationMode.skip)
    (hj : options.arrays = ArrayStrategy.join) :
    sanitizeValue purify options path depth (Value.vArr items) =
      ([Event.sanitizeEv (String.intercalate "." path) (Value.vArr items)
          (Value.vStr (sanitizeString purify
            (String.intercalate " " (jsElemStrings items))
            (resolveMode (getFieldConfig (String.intercalate "." path) options) options)
            (resolveConfig (getFieldConfig (String.intercalate "." path) options)
              options)))],
        Except.ok (Value.vStr (sanitizeString purify
          (String.intercalate " " (jsElemStrings items))
          (resolveMode (getFieldConfig (String.intercalate "." path) options) options)
          (resolveConfig (getFieldConfig (String.intercalate "." path) options)
            options)))) := by
  rw [sanitizeValue_join purify options path depth items hs hnc hns hj]
  simp [jsJoin]

/-- Witness for C8: joining two markup strings with idPurify exposes the
single-space separator, and with blankPurify the collapsed scalar is then
transformed. -/
theorem claim_C8_witness :
    (sanitizeValue idPurify joinOptions ["tags"] 0
      (Value.vArr [Value.vStr "<b>a</b>", Value.vStr "<i>b</i>"]) =
      ([Event.sanitizeEv "tags"
          (Value.vArr [Value.vStr "<b>a</b>", Value.vStr "<i>b</i>"])
          (Value.vStr "<b>a</b> <i>b</i>")],
        Except.ok (Value.vStr "<b>a</b> <i>b</i>")))
    ∧ (sanitizeValue blankPurify joinOptions ["tags"] 0
        (Value.vArr [Value.vStr "a", Value.vStr "b"]) =
        ([Event.sanitizeEv "tags" (Value.vArr [Value.vStr "a", Value.vStr "b"])
            (Value.vStr "")],
          Except.ok (Value.vStr ""))) := by
  have hg : getFieldConfig "tags" joinOptions = none := rfl
  constructor
  · have h := claim_C8 idPurify joinOptions ["tags"] 0
      [Value.vStr "<b>a</b>", Value.vStr "<i>b</i>"] (by decide)
      (by rw [show String.intercalate "." ["tags"] = "tags" from rfl, hg]; rfl)
      (by rw [show String.intercalate "." ["tags"] = "tags" from rfl, hg]; simp) rfl
    rw [h]
    rfl
  · have h := claim_C8 blankPurify joinOptions ["tags"] 0
      [Value.vStr "a", Value.vStr "b"] (by decide)
      (by rw [show String.intercalate "." ["tags"] = "tags" from rfl, hg]; rfl)
      (by rw [show String.intercalate "." ["tags"] = "tags" from rfl, hg]; simp) rfl
    rw [h]
    rfl

/-- C9 counterexample: a field-level custom sanitizer applies to a number
node and replaces it, so a non-string, non-array, non-object value is not
always returned unchanged as the claim states. -/
theorem claim_C9_counterexample :
    sanitizeTarget idPurify customNumOptions [("n", Value.vNum 5)] =
      ([Event.sanitizeEv "n" (Value.vNum 5) (Value.vNum 0)],
        Except.ok [("n", Value.vNum 0)]) ∧ Value.vNum 0 ≠ Value.vNum 5 := by
  exact ⟨rfl, by simp⟩

/-- C9 amended: a value that is neither a string, an array, nor a plain
object (a number, boolean, or null) is returned by sanitizeValue as the
very value it received, provided no field-level custom sanitizer applies
at its path (custom mode short-circuits the type dispatch and may replace
any value). -/
theorem claim_C9 (purify : Purify) (options : Options) (path : List String)
    (depth : Nat) (value : Value)
    (hnc : customSanitizerOf (getFieldConfig (String.intercalate "." path) options) = none)
    (hv : nonContainer value = true) :
    (sanitizeValue purify options path depth value).2 = Except.ok value := by
  cases value with
  | vStr s => simp [nonContainer] at hv
  | vArr items => simp [nonContainer] at hv
  | vObj entries => simp [nonContainer] at hv
  | vNum n =>
    unfold sanitizeValue
    rcases hsk : shouldSkipField (String.intercalate "." path)
      (getFieldConfig (String.intercalate "." path) options) options path with ⟨evs, b⟩
    cases b
    · simp [hsk, hnc, catchStep]
    · simp [hsk, catchStep]
  | vBool bv =>
    unfold sanitizeValue
    rcases hsk : shouldSkipField (String.intercalate "." path)
      (getFieldConfig (String.intercalate "." path) options) options path with ⟨evs, b⟩
    cases b
    · simp [hsk, hnc, catchStep]
    · simp [hsk, catchStep]
  | vNull =>
    unfold sanitizeValue
    rcases hsk : shouldSkipField (String.intercalate "." path)
      (getFieldConfig (String.intercalate "." path) options) options path with ⟨evs, b⟩
    cases b
    · simp [hsk, hnc, catchStep]
    · simp [hsk, catchStep]

/-- Witness for C9: a number, a boolean, and null pass through the
default-shaped configuration unchanged. -/
theorem claim_C9_witness :
    ((sanitizeValue idPurify plainOptions ["num"] 0 (Value.vNum 7)).2 =
      Except.ok (Value.vNum 7))
    ∧ ((sanitizeValue idPurify plainOptions ["flag"] 0 (Value.vBool true)).2 =
        Except.ok (Value.vBool true))
    ∧ ((sanitizeValue idPurify plainOptions ["gone"] 0 Value.vNull).2 =
        Except.ok Value.vNull) := by
  exact ⟨claim_C9 idPurify plainOptions ["num"] 0 (Value.vNum 7) rfl rfl,
    claim_C9 idPurify plainOptions ["flag"] 0 (Value.vBool true) rfl rfl,
    claim_C9 idPurify plainOptions ["gone"] 0 Value.vNull rfl rfl⟩

/-- C10: when every whitelist entry is a multi-segment dotted path and
every top-level key is a single segment (no dot), every top-level field
fails the scope check, is skipped with only an onSkip event before any
recursion, and the whole target is returned unchanged, so the whitelisted
nested field is never reached. -/
theorem claim_C10 (purify : Purify) (options : Options) (wl : List String)
    (target : List (String × Value))
    (hwl : options.whitelist = some wl) (hne : wl ≠ [])
    (hdot : ∀ p ∈ wl, ('.' : Char) ∈ p.data)
    (hkeys : ∀ kv : String × Value, kv ∈ target → ('.' : Char) ∉ kv.1.data) :
    sanitizeTarget purify options target =
      (target.map fun kv => Event.skipEv kv.1 (pathValue [kv.1]),
        Except.ok target) := by
  have main : ∀ t : List (String × Value),
      (∀ kv : String × Value, kv ∈ t → ('.' : Char) ∉ kv.1.data) →
      sanitizeTarget purify options t =
        (t.map fun kv => Event.skipEv kv.1 (pathValue [kv.1]), Except.ok t) := by
    intro t
    induction t with
    | nil => intro _; simp [sanitizeTarget]
    | cons kv rest ih =>
      intro hk
      obtain ⟨k, v⟩ := kv
      have hkd : ('.' : Char) ∉ k.data := hk (k, v) (List.mem_cons_self _ _)
      have hs := shouldSanitizeField_dotFree options wl k hwl hne hdot hkd
      have hs2 : shouldSanitizeField (String.intercalate "." [k]) options = false := by
        rw [intercalate_singleton]; exact hs
      have hsv := sanitizeValue_notInScope purify options [k] 0 v hs2
      rw [intercalate_singleton] at hsv
      have ihr := ih fun kv2 hkv2 => hk kv2 (List.mem_cons_of_mem _ hkv2)
      simp [sanitizeTarget, hsv, ihr]
  exact main target hkeys

/-- Witness for C10: with the whitelist entry user.profile.bio only, the
top-level key user is skipped outright and the nested bio field is never
transformed. -/
theorem claim_C10_witness :
    sanitizeTarget blankPurify dottedWhitelistOptions
      [("user", Value.vObj [("profile", Value.vObj [("bio", Value.vStr "<p>hi</p>")])])] =
      ([Event.skipEv "user" (pathValue ["user"])],
        Except.ok [("user", Value.vObj [("profile",
          Value.vObj [("bio", Value.vStr "<p>hi</p>")])])]) := by
  exact claim_C10 blankPurify dottedWhitelistOptions ["user.profile.bio"]
    [("user", Value.vObj [("profile", Value.vObj [("bio", Value.vStr "<p>hi</p>")])])]
    rfl (by decide) (by decide) (by decide)

/-- C3: with deep traversal, each arrays, contained errors and a
default-shaped scope, an object node visited at or past maxDepth yields
exactly the depth-exceeded error event carrying the offending path and is
returned unmodified; any target entry whose object nesting exceeds
maxDepth produces a depth-exceeded error event during the run; and the
top-level call still completes with every entry mapped independently of
its siblings. -/
theorem claim_C3 (purify : Purify) (options : Options)
    (hw : options.whitelist = none) (hb : options.blacklist = none)
    (hf : options.fields = none) (hdeep : options.deep = true)
    (heach : options.arrays = ArrayStrategy.each)
    (ht : options.throwOnError = false) :
    (∀ (path : List String) (depth : Nat) (entries : List (String × Value)),
      options.maxDepth ≤ depth →
      sanitizeValue purify options path depth (Value.vObj entries) =
        ([Event.errorEv (depthMessage options.maxDepth (String.intercalate "." path))
            (String.intercalate "." path)],
          Except.ok (Value.vObj entries)))
    ∧ (∀ (target : List (String × Value)) (k : String) (v : Value),
        (k, v) ∈ target → options.maxDepth < objNest v →
        ∃ p, Event.errorEv (depthMessage options.maxDepth p) p ∈
          (sanitizeTarget purify options target).1)
    ∧ (∀ target : List (String × Value),
        (sanitizeTarget purify options target).2 =
          Except.ok (target.map fun kv =>
            (kv.1, sanitizeValueTotal purify options [kv.1] 0 kv.2))) := by
  refine ⟨?_, ?_, ?_⟩
  · intro path depth entries hd
    have hs := shouldSanitizeField_noLists (String.intercalate "." path) options hw hb
    have hfc := getFieldConfig_none (String.intercalate "." path) options hf
    have hnc : customSanitizerOf
        (getFieldConfig (String.intercalate "." path) options) = none := by
      rw [hfc]; rfl
    have hns : ((getFieldConfig (String.intercalate "." path) options).map
        fun c => c.mode) ≠ some SanitizationMode.skip := by
      rw [hfc]; simp
    exact sanitizeValue_obj_depth purify options path depth entries hs hnc hns hdeep ht hd
  · intro target k v hmem hnest
    obtain ⟨p, hp⟩ := depthErrValue purify options hw hb hf hdeep heach ht
      v [k] 0 (by omega) (by omega)
    exact ⟨p, sanitizeTarget_events_mem purify options target k v _ ht hmem hp⟩
  · intro target
    exact sanitizeTarget_snd purify options target ht

/-- Witness for C3 at maxDepth one: the object at path a.b is reported and
returned untouched, the over-deep target entry produces an error event,
and the sibling string is still fully sanitized while the run completes. -/
theorem claim_C3_witness :
    (sanitizeValue blankPurify depthOptions ["a", "b"] 1 (Value.vObj []) =
      ([Event.errorEv (depthMessage 1 "a.b") "a.b"], Except.ok (Value.vObj [])))
    ∧ (∃ p, Event.errorEv (depthMessage 1 p) p ∈
        (sanitizeTarget blankPurify depthOptions
          [("a", Value.vObj [("b", Value.vObj [])]), ("s", Value.vStr "y")]).1)
    ∧ ((sanitizeTarget blankPurify depthOptions
        [("a", Value.vObj [("b", Value.vObj [])]), ("s", Value.vStr "y")]).2 =
        Except.ok [("a", Value.vObj [("b", Value.vObj [])]), ("s", Value.vStr "")]) := by
  have h := claim_C3 blankPurify depthOptions rfl rfl rfl rfl rfl rfl
  refine ⟨h.1 ["a", "b"] 1 [] (by decide), ?_, ?_⟩
  · exact h.2.1 [("a", Value.vObj [("b", Value.vObj [])]), ("s", Value.vStr "y")]
      "a" (Value.vObj [("b", Value.vObj [])]) (List.mem_cons_self _ _) (by decide)
  · rw [h.2.2 [("a", Value.vObj [("b", Value.vObj [])]), ("s", Value.vStr "y")]]
    rfl

/-- C4: a custom field sanitizer that throws is contained when
throwOnError is false (the error event carries the field path and the
node keeps its original value) and every level of traversal still maps
each sibling independently; when throwOnError is true the error escapes
the whole sanitizeTarget call, aborting the remaining entries. -/
theorem claim_C4 :
    (∀ (purify : Purify) (options : Options) (path : List String) (depth : Nat)
      (value : Value) (g : Value → Except String Value) (e : String),
      shouldSanitizeField (String.intercalate "." path) options = true →
      customSanitizerOf (getFieldConfig (String.intercalate "." path) options) =
        some g →
      g value = Except.error e →
      options.throwOnError = false →
      sanitizeValue purify options path depth value =
        ([Event.errorEv e (String.intercalate "." path)], Except.ok value))
    ∧ (∀ (purify : Purify) (options : Options),
        options.throwOnError = false →
        (∀ target : List (String × Value),
          (sanitizeTarget purify options target).2 =
            Except.ok (target.map fun kv =>
              (kv.1, sanitizeValueTotal purify options [kv.1] 0 kv.2)))
        ∧ (∀ (path : List String) (depth idx : Nat) (items : List Value),
            (sanitizeArrEach purify options path depth idx items).2 =
              Except.ok (sanitizeArrEachTotal purify options path depth idx items))
        ∧ (∀ (path : List String) (depth : Nat) (entries : List (String × Value)),
            (sanitizeObjEntries purify options path depth entries).2 =
              Except.ok (entries.map fun kv =>
                (kv.1, sanitizeValueTotal purify options (path ++ [kv.1])
                  (depth + 1) kv.2))))
    ∧ (∀ (purify : Purify) (options : Options) (k : String) (v : Value)
        (rest : List (String × Value)) (g : Value → Except String Value) (e : String),
        shouldSanitizeField k options = true →
        customSanitizerOf (getFieldConfig k options) = some g →
        g v = Except.error e →
        options.throwOnError = true →
        sanitizeTarget purify options ((k, v) :: rest) = ([], Except.error e)) := by
  refine ⟨?_, ?_, ?_⟩
  · intro purify options path depth value g e hs hg he ht
    exact sanitizeValue_custom_err_contained purify options path depth value e g
      hs hg he ht
  · intro purify options ht
    exact ⟨fun target => sanitizeTarget_snd purify options target ht,
      fun path depth idx items =>
        sanitizeArrEach_snd purify options path depth items idx ht,
      fun path depth entries =>
        sanitizeObjEntries_snd purify options path depth entries ht⟩
  · intro purify options k v rest g e hs hg he ht
    have hs2 : shouldSanitizeField (String.intercalate "." [k]) options = true := by
      rw [intercalate_singleton]; exact hs
    have hg2 : customSanitizerOf
        (getFieldConfig (String.intercalate "." [k]) options) = some g := by
      rw [intercalate_singleton]; exact hg
    have hv := sanitizeValue_custom_err_thrown purify options [k] 0 v e g hs2 hg2 he ht
    simp [sanitizeTarget, hv]

/-- Witness for C4: the throwing sanitizer on the field bad is contained
with the original value kept, the sibling field other is still sanitized,
and under throwOnError the whole target call aborts with the error. -/
theorem claim_C4_witness :
    (sanitizeValue idPurify boomOptions ["bad"] 0 (Value.vStr "x") =
      ([Event.errorEv "boom" "bad"], Except.ok (Value.vStr "x")))
    ∧ ((sanitizeTarget blankPurify boomOptions
        [("bad", Value.vStr "x"), ("other", Value.vStr "y")]).2 =
        Except.ok [("bad", Value.vStr "x"), ("other", Value.vStr "")])
    ∧ (sanitizeTarget idPurify boomThrowOptions
        [("bad", Value.vStr "x"), ("other", Value.vStr "y")] =
        ([], Except.error "boom")) := by
  refine ⟨?_, ?_, ?_⟩
  · exact claim_C4.1 idPurify boomOptions ["bad"] 0 (Value.vStr "x")
      (fun _ => Except.error "boom") "boom" (by decide) rfl rfl rfl
  · rw [(claim_C4.2.1 blankPurify boomOptions rfl).1
      [("bad", Value.vStr "x"), ("other", Value.vStr "y")]]
    rfl
  · exact claim_C4.2.2 idPurify boomThrowOptions "bad" (Value.vStr "x")
      [("other", Value.vStr "y")] (fun _ => Except.error "boom") "boom"
      (by decide) rfl rfl rfl

end HonoSanitizer
